import Mathlib

/-!
Verification of the basictracer-javascript core: trace/span identity model,
sampling, the text-map and binary context-propagation codecs, and the
Tracer orchestration (src/tracer.js).  JavaScript strings are embedded as
lists of characters, 64-bit ids as natural numbers bounded by 2^64, and
throwing code as Except-valued functions.
-/

/-- JavaScript strings, embedded as lists of characters. -/
abbrev Str := List Char

/-- Baggage: a string-to-string mapping, embedded as an association list. -/
abbrev Baggage := List (Str × Str)

/-- Errors the core can raise (spec section 7). -/
inductive TracerErr where
  | malformedCarrier
  | unsupportedFormat
  | invalidBaggageKey
deriving DecidableEq, Repr

/-- SpanContext: the immutable identity bundle
traceId, spanId, optional parentId, sampled flag and baggage (spec section 3). -/
structure SpanContext where
  traceId : Nat
  spanId : Nat
  parentId : Option Nat
  sampled : Bool
  baggage : Baggage
deriving DecidableEq, Repr

/-- A 64-bit id fits in 8 bytes; a context is valid when its ids do (spec section 3:
ids are 64-bit unsigned integers). -/
def validCtx (c : SpanContext) : Bool :=
  decide (c.traceId < 2 ^ 64) && decide (c.spanId < 2 ^ 64) &&
    decide (c.parentId.getD 0 < 2 ^ 64)

/-- Tag values: a closed scalar variant (spec section 3, tags map strings to scalars). -/
inductive Scalar where
  | s (v : Str)
  | i (v : Int)
  | b (v : Bool)
deriving DecidableEq, Repr

/-- One log record: timestamp, event name, payload (spec section 3). -/
structure LogRecord where
  timestamp : Nat
  event : Str
  payload : Str
deriving DecidableEq, Repr

/-- Span lifecycle states: Open until finish() is called, then Finished (spec section 3). -/
inductive SpanState where
  | opened
  | finished
deriving DecidableEq, Repr

/-- Span: the local mutable unit of work (spec section 3). -/
structure Span where
  operationName : Str
  startTime : Nat
  state : SpanState
  tags : List (Str × Scalar)
  logs : List LogRecord
  context : SpanContext
deriving DecidableEq, Repr

/- ## Identity model (spec section 4.1)

Modelled from the spec: the SpanContext creation/inheritance module of the
repository is not among the sources (only its callers in src/tracer.js and the
BasicSpan declaration skeleton are present); definitions follow spec
section 4.1 verbatim. -/

/-- Modelled from the spec: newRootContext(samplerDecision) - traceId and spanId
random 64-bit (passed in explicitly here), no parentId, sampled from the
sampler decision, empty baggage (spec section 4.1). -/
def newRootContext (samplerDecision : Bool) (tid sid : Nat) : SpanContext :=
  { traceId := tid, spanId := sid, parentId := none,
    sampled := samplerDecision, baggage := [] }

/-- Modelled from the spec: newChildContext(parent) - parent trace id, fresh
span id, parent's span id as parentId, parent's sampled copied verbatim,
baggage copied (spec section 4.1). -/
def newChildContext (parent : SpanContext) (freshSid : Nat) : SpanContext :=
  { traceId := parent.traceId, spanId := freshSid, parentId := some parent.spanId,
    sampled := parent.sampled, baggage := parent.baggage }

/-- Lower-casing of a string, character by character. -/
def toLowerStr (s : Str) : Str := s.map Char.toLower

/-- One character of the baggage-key pattern body: [-a-z0-9]. -/
def isLowerKeyChar (c : Char) : Bool :=
  (decide (Char.ofNat 97 ≤ c) && decide (c ≤ Char.ofNat 122)) ||
    (decide (Char.ofNat 48 ≤ c) && decide (c ≤ Char.ofNat 57))

/-- Modelled from the spec: baggage keys are case-insensitive and must match
[a-z0-9][-a-z0-9]* (spec section 3), so validity is a case-insensitive match
of that pattern - the lower-cased key must match it literally. -/
def baggageKeyValid (k : Str) : Bool :=
  match toLowerStr k with
  | [] => false
  | c :: rest => isLowerKeyChar c && rest.all fun c => c = Char.ofNat 45 || isLowerKeyChar c

/-- Association-list update: replace the first binding of the key, else append. -/
def setEntry (b : Baggage) (k v : Str) : Baggage :=
  match b with
  | [] => [(k, v)]
  | (k', v') :: rest => if k' = k then (k, v) :: rest else (k', v') :: setEntry rest k v

/-- First binding of a key in an association list. -/
def findEntry (b : Baggage) (k : Str) : Option Str :=
  match b with
  | [] => none
  | (k', v) :: rest => if k' = k then some v else findEntry rest k

/-- Modelled from the spec: setBaggageItem(key, value) on a context - validates
the key against the baggage-key pattern; on failure fails with InvalidBaggageKey
leaving the baggage untouched; on success stores the lower-cased key
(spec section 4.1). -/
def setBaggageItemCtx (ctx : SpanContext) (k v : Str) : Except TracerErr SpanContext :=
  if baggageKeyValid k then
    .ok { ctx with baggage := setEntry ctx.baggage (toLowerStr k) v }
  else
    .error .invalidBaggageKey

/-- Modelled from the spec: getBaggageItem(key) - case-insensitive lookup,
returning an explicit absent result for unknown keys (spec section 4.1). -/
def getBaggageItem (ctx : SpanContext) (k : Str) : Option Str :=
  findEntry ctx.baggage (toLowerStr k)

/- ## Sampler (spec section 4.2)

Modelled from the spec: the sampler module of the repository is not among the
sources (src/tracer.js only delegates to it); spec section 4.2 requires a pure
deterministic function of the traceId - a uniform 64-bit value derived from the
traceId by a fixed hash, sampled iff that value is below rate * 2^64. -/

/-- Modelled from the spec: the fixed 64-bit hash deriving a uniform value in
[0, 2^64) from a traceId (spec section 4.2); a fixed multiply-add hash modulo 2^64. -/
def samplerHash (traceId : Nat) : Nat :=
  (traceId * 2862933555777941757 + 3037000493) % 2 ^ 64

/-- Modelled from the spec: isSample(traceId), parameterized by a fixed rate
given as the threshold rate * 2^64; samples iff the hashed value is below the
threshold (spec section 4.2). -/
def isSample (threshold : Nat) (traceId : Nat) : Bool :=
  samplerHash traceId < threshold

/- ## Decimal numerals for the text codec -/

/-- Little-endian decimal digits of n, with explicit fuel for structural
recursion (fuel at least n suffices). -/
def digitsRevAux : Nat → Nat → List Nat
  | 0, _ => []
  | fuel + 1, n => if n = 0 then [] else n % 10 :: digitsRevAux fuel (n / 10)

/-- Value of a little-endian list of decimal digits. -/
def ofDigitsLE : List Nat → Nat
  | [] => 0
  | d :: ds => d + 10 * ofDigitsLE ds

/-- Decimal rendering of a natural number. -/
def encodeNat (n : Nat) : Str :=
  if n = 0 then [Char.ofNat 48]
  else ((digitsRevAux n n).map Nat.digitChar).reverse

/-- Numeric value of a decimal digit character. -/
def charDigitVal (c : Char) : Nat := c.toNat - 48

/-- Decimal parsing: every character must be a digit and the string nonempty. -/
def decodeNat (s : Str) : Option Nat :=
  if s ≠ [] ∧ s.all Char.isDigit then
    some (ofDigitsLE ((s.map charDigitVal).reverse))
  else none

/- ## TextMapCodec (spec section 4.3)

Modelled from the spec: the TextMapPropagator module of the repository is not
among the sources (src/tracer.js only dispatches to it); definitions follow
spec section 4.3 - one identity entry holding traceId, spanId, parentId
(sentinel if absent) and sampled as colon-delimited strings, plus one entry per
baggage item under a fixed namespace. -/

/-- Carrier key of the identity entry. -/
def idKey : Str := "ot-tracer".toList

/-- Namespace put before baggage keys in the carrier. -/
def bagPfx : Str := "ot-baggage-".toList

/-- Sentinel string standing for an absent parentId in the identity entry. -/
def parentSentinel : Str := "x".toList

/-- Rendering of the sampled flag inside the identity entry. -/
def encodeBoolStr (b : Bool) : Str := if b then "1".toList else "0".toList

/-- Parsing of the sampled flag. -/
def decodeBoolStr : Str → Option Bool
  | ['1'] => some true
  | ['0'] => some false
  | _ => none

/-- Value of the identity entry: the four fields, colon-delimited. -/
def identVal (c : SpanContext) : Str :=
  encodeNat c.traceId ++ ':' ::
    (encodeNat c.spanId ++ ':' ::
      ((match c.parentId with
        | none => parentSentinel
        | some p => encodeNat p) ++ ':' :: encodeBoolStr c.sampled))

/-- Splitting a string at every colon. -/
def splitColon : Str → List Str
  | [] => [[]]
  | c :: rest =>
    if c = ':' then [] :: splitColon rest
    else
      match splitColon rest with
      | [] => [[c]]
      | p :: ps => (c :: p) :: ps

/-- Parsing of the four delimited identity fields. -/
def parseParts (a b p f : Str) : Option (Nat × Nat × Option Nat × Bool) :=
  match decodeNat a, decodeNat b,
      (if p = parentSentinel then some none else (decodeNat p).map some),
      decodeBoolStr f with
  | some t, some s, some pid, some smp => some (t, s, pid, smp)
  | _, _, _, _ => none

/-- Parsing of the identity entry value back into the four fields. -/
def parseIdentity (v : Str) : Option (Nat × Nat × Option Nat × Bool) :=
  match splitColon v with
  | [a, b, p, f] => parseParts a b p f
  | _ => none

/-- Modelled from the spec: textMapInject - additively writes the identity
entry and one namespaced entry per baggage item (spec section 4.3). -/
def textMapInject (c : SpanContext) (entries : List (Str × Str)) : List (Str × Str) :=
  entries ++ (idKey, identVal c) :: c.baggage.map fun kv => (bagPfx ++ kv.1, kv.2)

/-- Recovery of one baggage item from a carrier entry: keys carrying the
namespace are stripped of it, all other keys are ignored. -/
def bagOfEntry (kv : Str × Str) : Option (Str × Str) :=
  if bagPfx = kv.1.take bagPfx.length then some (kv.1.drop bagPfx.length, kv.2) else none

/-- Modelled from the spec: textMapExtract - parses the identity entry,
returning no context when it is missing or malformed, and recovers baggage by
matching and stripping the namespace from carrier keys (spec section 4.3). -/
def textMapExtract (entries : List (Str × Str)) : Option SpanContext :=
  match findEntry entries idKey with
  | none => none
  | some v =>
    match parseIdentity v with
    | none => none
    | some (t, s, pid, smp) =>
      some { traceId := t, spanId := s, parentId := pid, sampled := smp,
             baggage := entries.filterMap bagOfEntry }

/- ## BinaryCodec (spec section 4.4)

Modelled from the spec: the BinaryPropagator module of the repository is not
among the sources (src/tracer.js only dispatches to it); definitions follow the
fixed byte layout of spec section 4.4 - traceId (8 bytes big-endian), spanId
(8 bytes), parentId-present flag (1 byte), parentId (8 bytes, zero-filled if
absent), sampled (1 byte), baggage count (variable-length integer), then per
item length-prefixed UTF-8 key and value bytes; every length-prefixed read is
bounds-checked before being performed. -/

/-- Byte sequences, embedded as lists of naturals below 256. -/
abbrev Bytes := List Nat

/-- The one reading primitive: takes n bytes off the front after checking that
the buffer holds at least n bytes, failing with MalformedCarrier otherwise. -/
def readBytes (n : Nat) (s : Bytes) : Except TracerErr (Bytes × Bytes) :=
  if n ≤ s.length then .ok (s.take n, s.drop n) else .error .malformedCarrier

/-- Big-endian value of a byte list. -/
def beVal (bs : Bytes) : Nat := bs.foldl (fun a b => a * 256 + b) 0

/-- 8-byte big-endian encoding of a 64-bit value. -/
def encodeBE8 (n : Nat) : Bytes :=
  [n / 2 ^ 56 % 256, n / 2 ^ 48 % 256, n / 2 ^ 40 % 256, n / 2 ^ 32 % 256,
   n / 2 ^ 24 % 256, n / 2 ^ 16 % 256, n / 2 ^ 8 % 256, n % 256]

/-- Bounds-checked big-endian read of 8 bytes. -/
def readBE8 (s : Bytes) : Except TracerErr (Nat × Bytes) :=
  match readBytes 8 s with
  | .ok (bs, rest) => .ok (beVal bs, rest)
  | .error e => .error e

/-- Bounds-checked read of one byte. -/
def readByte (s : Bytes) : Except TracerErr (Nat × Bytes) :=
  match readBytes 1 s with
  | .ok (bs, rest) => .ok (beVal bs, rest)
  | .error e => .error e

/-- Variable-length (base-128) integer encoding, low groups first, with fuel
for structural recursion. -/
def encVarintAux : Nat → Nat → Bytes
  | 0, _ => []
  | fuel + 1, n => if n < 128 then [n] else (128 + n % 128) :: encVarintAux fuel (n / 128)

/-- Variable-length integer encoding; fuel n + 1 always suffices. -/
def encVarint (n : Nat) : Bytes := encVarintAux (n + 1) n

/-- Bounds-checked variable-length integer read. -/
def readVarint : Bytes → Except TracerErr (Nat × Bytes)
  | [] => .error .malformedCarrier
  | b :: rest =>
    if b < 128 then .ok (b, rest)
    else
      match readVarint rest with
      | .ok (m, r) => .ok (b % 128 + 128 * m, r)
      | .error e => .error e

/-- UTF-8 bytes of one character. -/
def utf8Char (c : Char) : Bytes :=
  if c.toNat < 128 then [c.toNat]
  else if c.toNat < 2048 then [192 + c.toNat / 64, 128 + c.toNat % 64]
  else if c.toNat < 65536 then
    [224 + c.toNat / 4096, 128 + c.toNat / 64 % 64, 128 + c.toNat % 64]
  else
    [240 + c.toNat / 262144, 128 + c.toNat / 4096 % 64, 128 + c.toNat / 64 % 64,
     128 + c.toNat % 64]

/-- UTF-8 bytes of a string. -/
def utf8Str (s : Str) : Bytes := (s.map utf8Char).join

/-- A character from a code point, when the code point is a valid scalar value. -/
def charOfValid? (n : Nat) : Option Char :=
  if h : n.isValidChar then some (Char.ofNat n) else none

/-- Prepending the character of a code point onto an already decoded tail;
none when the code point is invalid or the tail failed. -/
def consChar? (n : Nat) (r : Option Str) : Option Str :=
  (charOfValid? n).bind fun c => r.map (c :: ·)

/-- Decoding of one UTF-8 sequence off the front of a byte list: the code
point and the remaining bytes; none on a stray, truncated or overrun
sequence. -/
def decodeChar1 : Bytes → Option (Nat × Bytes)
  | [] => none
  | b :: rest =>
    if b < 128 then some (b, rest)
    else if b < 192 then none
    else if b < 224 then
      match rest with
      | b2 :: r2 =>
        if 128 ≤ b2 ∧ b2 < 192 then some ((b - 192) * 64 + (b2 - 128), r2) else none
      | [] => none
    else if b < 240 then
      match rest with
      | b2 :: b3 :: r3 =>
        if (128 ≤ b2 ∧ b2 < 192) ∧ (128 ≤ b3 ∧ b3 < 192) then
          some ((b - 224) * 4096 + (b2 - 128) * 64 + (b3 - 128), r3)
        else none
      | _ => none
    else if b < 248 then
      match rest with
      | b2 :: b3 :: b4 :: r4 =>
        if (128 ≤ b2 ∧ b2 < 192) ∧ (128 ≤ b3 ∧ b3 < 192) ∧ (128 ≤ b4 ∧ b4 < 192) then
          some ((b - 240) * 262144 + (b2 - 128) * 4096 + (b3 - 128) * 64 + (b4 - 128), r4)
        else none
      | _ => none
    else none

/-- One UTF-8 sequence covers at least the byte it starts with. -/
theorem decodeChar1_shrink : ∀ (l : Bytes) (n : Nat) (r : Bytes),
    decodeChar1 l = some (n, r) → r.length < l.length := by
  intro l n r h
  unfold decodeChar1 at h
  repeat' split at h
  all_goals simp_all
  all_goals omega

/-- UTF-8 decoding of a byte list; any stray, truncated or invalid sequence
gives none. -/
def decodeUtf8 (l : Bytes) : Option Str :=
  match l with
  | [] => some []
  | b :: rest =>
    match hd : decodeChar1 (b :: rest) with
    | some (n, r) => consChar? n (decodeUtf8 r)
    | none => none
termination_by l.length
decreasing_by
  have := decodeChar1_shrink (b :: rest) n r hd
  omega

/-- Length-prefixed string encoding: UTF-8 byte count, then the bytes. -/
def encStr (s : Str) : Bytes := encVarint (utf8Str s).length ++ utf8Str s

/-- Bounds-checked length-prefixed string read. -/
def readStr (s : Bytes) : Except TracerErr (Str × Bytes) := do
  let (len, s1) ← readVarint s
  let (bs, s2) ← readBytes len s1
  match decodeUtf8 bs with
  | some chars => pure (chars, s2)
  | none => .error .malformedCarrier

/-- Encoding of the baggage items: per item, length-prefixed key then value. -/
def encItems (b : Baggage) : Bytes := (b.map fun kv => encStr kv.1 ++ encStr kv.2).join

/-- Bounds-checked read of the declared number of baggage items. -/
def readItems : Nat → Bytes → Except TracerErr (Baggage × Bytes)
  | 0, s => .ok ([], s)
  | count + 1, s => do
    let (k, s1) ← readStr s
    let (v, s2) ← readStr s1
    let (items, s3) ← readItems count s2
    pure ((k, v) :: items, s3)

/-- Modelled from the spec: binaryInject - serializes a context to the fixed
byte layout of spec section 4.4; the carrier's buffer is replaced wholesale. -/
def binaryInject (c : SpanContext) : Bytes :=
  encodeBE8 c.traceId ++ encodeBE8 c.spanId ++
    (if c.parentId.isSome then 1 else 0) :: encodeBE8 (c.parentId.getD 0) ++
    (if c.sampled then 1 else 0) :: (encVarint c.baggage.length ++ encItems c.baggage)

/-- Modelled from the spec: binaryExtract - reads the fixed layout back,
failing with MalformedCarrier whenever the buffer is shorter than a field
demands (spec section 4.4). -/
def binaryExtract (buf : Bytes) : Except TracerErr SpanContext := do
  let (t, s1) ← readBE8 buf
  let (sp, s2) ← readBE8 s1
  let (flag, s3) ← readByte s2
  let (pid, s4) ← readBE8 s3
  let (smp, s5) ← readByte s4
  let (count, s6) ← readVarint s5
  let (items, _) ← readItems count s6
  pure { traceId := t, spanId := sp,
         parentId := if flag = 0 then none else some pid,
         sampled := decide (smp ≠ 0), baggage := items }

/- ## Tracer orchestration (embedded from src/tracer.js) -/

/-- The text-map format token of the interface (opaque identity; dispatch in
src/tracer.js is identity-equality on it). -/
def FORMAT_TEXT_MAP : Str := "text_map".toList

/-- The binary format token of the interface. -/
def FORMAT_BINARY : Str := "binary".toList

/-- A carrier object as src/tracer.js sees it: string entries written by the
text propagator, and one buffer field replaced wholesale by the binary one. -/
structure CarrierObj where
  entries : List (Str × Str)
  buffer : Bytes
deriving DecidableEq, Repr

/-- The empty carrier. -/
def emptyCarrier : CarrierObj := { entries := [], buffer := [] }

/-- BasicTracer.inject (src/tracer.js): dispatches on the format token to the
text or binary propagator; the source has no branch for any other token, so an
unrecognized format leaves the carrier untouched and raises nothing. -/
def tracerInject (format : Str) (ctx : SpanContext) (c : CarrierObj) :
    Except TracerErr CarrierObj :=
  if format = FORMAT_TEXT_MAP then .ok { c with entries := textMapInject ctx c.entries }
  else if format = FORMAT_BINARY then .ok { c with buffer := binaryInject ctx }
  else .ok c

/-- BasicTracer.join (src/tracer.js): dispatches on the format token; for any
other token the local span variable stays undefined and is returned, so the
result is no context and no error. -/
def tracerJoin (format : Str) (c : CarrierObj) : Except TracerErr (Option SpanContext) :=
  if format = FORMAT_TEXT_MAP then .ok (textMapExtract c.entries)
  else if format = FORMAT_BINARY then
    match binaryExtract c.buffer with
    | .ok ctx => .ok (some ctx)
    | .error e => .error e
  else .ok none

/-- BasicTracer.record (src/tracer.js): forwards the span to the Recorder,
unconditionally; the Recorder is embedded as the list of spans it received. -/
def tracerRecord (recorded : List Span) (sp : Span) : List Span :=
  recorded ++ [sp]

/-- BasicTracer.isSample (src/tracer.js): pure delegation to the configured
sampler. -/
def tracerIsSample (sampler : Nat → Bool) (tid : Nat) : Bool := sampler tid

/-- The parent argument of startSpan as JavaScript sees it: absent (falsy), an
interface object whose imp() method returns the wrapped value, or a plain
implementation value carrying a context. -/
inductive JsParent where
  | absent
  | wrapped (impResult : JsParent)
  | plain (c : SpanContext)
deriving DecidableEq, Repr

/-- The parent unwrap of BasicTracer.startSpan (src/tracer.js): when
fields.parent is present and fields.parent.imp is a function, the parent is
replaced by fields.parent.imp(); one single unwrap, everything else is used as
given. -/
def resolveParentArg : JsParent → JsParent
  | .wrapped r => r
  | p => p

/-- The context a parent value provides: only a plain implementation value
carries one. -/
def parentContextOf : JsParent → Option SpanContext
  | .plain c => some c
  | _ => none

/-- The fields argument of startSpan (src/tracer.js): operationName, optional
parent, optional startTime, optional tags. -/
structure StartFields where
  operationName : Str
  parent : JsParent
  startTime : Option Nat
  tags : Option (List (Str × Scalar))
deriving DecidableEq, Repr

/-- BasicTracer.startSpan (src/tracer.js) combined with the span construction
of spec section 4.5 - the span construction itself is modelled from the spec:
the BasicSpan source present is a declaration skeleton whose constructor
records none of the fields.  The parent unwrap is embedded from the source;
per spec section 4.5 the parent is resolved to a context, a root or child
context is built per section 4.1 (consulting the sampler only for roots), and
the span starts Open with the given name, the given or current start time, and
the supplied initial tags. -/
def startSpanModel (sampler : Nat → Bool) (now : Nat) (fields : StartFields)
    (freshTid freshSid : Nat) : Span :=
  let p := resolveParentArg fields.parent
  let ctx :=
    match parentContextOf p with
    | none => newRootContext (sampler freshTid) freshTid freshSid
    | some par => newChildContext par freshSid
  { operationName := fields.operationName,
    startTime := fields.startTime.getD now,
    state := .opened,
    tags := fields.tags.getD [],
    logs := [],
    context := ctx }

/- ## A store of live contexts

Baggage mutation is observable sharing: to state that mutating a child's
baggage leaves its parent and siblings untouched, contexts live in a store
keyed by handle, and setBaggageItem rewrites exactly one entry. -/

/-- A store of live span contexts, keyed by handle. -/
abbrev Store := List (Nat × SpanContext)

/-- First context bound to a handle. -/
def storeLookup (σ : Store) (h : Nat) : Option SpanContext :=
  match σ with
  | [] => none
  | (h', c) :: rest => if h' = h then some c else storeLookup rest h

/-- Modelled from the spec: creating a child of the context at parentKey adds a
fresh entry holding newChildContext of the parent - the parent's baggage is
copied into the child at creation time (spec section 3 and 4.1). -/
def createChild (σ : Store) (parentKey childKey freshSid : Nat) : Store :=
  match storeLookup σ parentKey with
  | some p => (childKey, newChildContext p freshSid) :: σ
  | none => σ

/-- Baggage update of one context: the lower-cased key is bound to the value. -/
def updBaggage (k v : Str) (c : SpanContext) : SpanContext :=
  { c with baggage := setEntry c.baggage (toLowerStr k) v }

/-- Modelled from the spec: setBaggageItem on the context at a handle - on an
invalid key the store is left untouched and InvalidBaggageKey raised; on
success exactly the entries of that handle are rewritten. -/
def storeSetBaggage (σ : Store) (h : Nat) (k v : Str) : Except TracerErr Store :=
  if baggageKeyValid k then
    .ok (σ.map fun e => if e.1 = h then (e.1, updBaggage k v e.2) else e)
  else .error .invalidBaggageKey

/- ## Helper lemmas -/

theorem setEntry_self_mem (b : Baggage) (k v : Str) : (k, v) ∈ setEntry b k v := by
  induction b with
  | nil => simp [setEntry]
  | cons e rest ih =>
    by_cases h : e.1 = k <;> simp [setEntry, h, ih]

theorem storeLookup_cons (h' : Nat) (c : SpanContext) (σ : Store) (j : Nat) :
    storeLookup ((h', c) :: σ) j = if h' = j then some c else storeLookup σ j := rfl

theorem storeLookup_map_update (σ : Store) (h j : Nat)
    (f : SpanContext → SpanContext) (hj : j ≠ h) :
    storeLookup (σ.map fun e => if e.1 = h then (e.1, f e.2) else e) j =
      storeLookup σ j := by
  induction σ with
  | nil => rfl
  | cons e rest ih =>
    obtain ⟨h', c⟩ := e
    by_cases hh : h' = h
    · subst hh
      simp only [List.map, if_pos rfl]
      rw [storeLookup_cons, storeLookup_cons, if_neg (by simpa using hj ∘ Eq.symm ∘ id),
        if_neg (fun hc => hj hc.symm), ih]
    · simp only [List.map, if_neg hh]
      rw [storeLookup_cons, storeLookup_cons]
      by_cases hcj : h' = j
      · simp [hcj]
      · simp [hcj, ih]

/- ## Claims about the Tracer orchestration -/

/-- A concrete finished span whose context is not sampled, with log and tag
data attached. -/
def unsampledSpan : Span :=
  { operationName := "op-a".toList, startTime := 5, state := .finished,
    tags := [("key".toList, Scalar.s "value".toList)],
    logs := [{ timestamp := 7, event := "read".toList, payload := "p".toList }],
    context := { traceId := 1, spanId := 2, parentId := none,
                 sampled := false, baggage := [] } }

/-- Claim C2 counterexample: BasicTracer.record (src/tracer.js) forwards a
finished span whose context has sampled = false to the Recorder, so the
snapshot is not dropped before reaching the Recorder as the claim states. -/
theorem c2_counterexample :
    unsampledSpan.context.sampled = false ∧ unsampledSpan.state = .finished ∧
      tracerRecord [] unsampledSpan = [unsampledSpan] :=
  ⟨rfl, rfl, rfl⟩

/-- Claim C2 (amended): BasicTracer.record forwards every span snapshot to the
Recorder unconditionally - the span is appended to what the Recorder received
whether or not its context is sampled; record performs no sampled check. -/
theorem c2_record_unconditional (recorded : List Span) (sp : Span) :
    tracerRecord recorded sp = recorded ++ [sp] ∧ sp ∈ tracerRecord recorded sp :=
  ⟨rfl, by simp [tracerRecord]⟩

/-- A format token recognized by neither codec branch. -/
def bogusFormat : Str := "bogus".toList

/-- A small concrete context. -/
def sampleCtx : SpanContext :=
  { traceId := 1, spanId := 2, parentId := none, sampled := true, baggage := [] }

/-- Claim C4 counterexample: on a format token equal to neither
FORMAT_TEXT_MAP nor FORMAT_BINARY, BasicTracer.inject (src/tracer.js) returns
normally with the carrier untouched and BasicTracer.join returns normally with
no span - neither fails with UnsupportedFormat. -/
theorem c4_counterexample :
    bogusFormat ≠ FORMAT_TEXT_MAP ∧ bogusFormat ≠ FORMAT_BINARY ∧
      tracerInject bogusFormat sampleCtx emptyCarrier = .ok emptyCarrier ∧
      tracerJoin bogusFormat emptyCarrier = .ok none := by
  refine ⟨by decide, by decide, ?_, ?_⟩ <;> rfl

/-- Claim C4 (amended): for every format token other than FORMAT_TEXT_MAP and
FORMAT_BINARY, BasicTracer.inject leaves the carrier unchanged and raises no
error, and BasicTracer.join returns no span and raises no error: the source
dispatch has no else branch, so an unrecognized token is silently ignored
rather than failing with UnsupportedFormat. -/
theorem c4_unrecognized_format_noop (format : Str) (ctx : SpanContext)
    (c : CarrierObj) (h₁ : format ≠ FORMAT_TEXT_MAP) (h₂ : format ≠ FORMAT_BINARY) :
    tracerInject format ctx c = .ok c ∧ tracerJoin format c = .ok none := by
  unfold tracerInject tracerJoin
  rw [if_neg h₁, if_neg h₂, if_neg h₁, if_neg h₂]
  exact ⟨rfl, rfl⟩

/-- Claim C4 witness: the amended theorem at the concrete token "bogus". -/
theorem c4_witness :
    tracerInject bogusFormat sampleCtx emptyCarrier = .ok emptyCarrier ∧
      tracerJoin bogusFormat emptyCarrier = .ok none :=
  c4_unrecognized_format_noop bogusFormat sampleCtx emptyCarrier (by decide) (by decide)

/-- Claim C8: the sampling decision is a pure deterministic function of the
traceId for a fixed rate - any two isSample calls at the same traceId return
the same boolean. -/
theorem c8_sampler_deterministic (threshold t : Nat) (b₁ b₂ : Bool)
    (h₁ : isSample threshold t = b₁) (h₂ : isSample threshold t = b₂) : b₁ = b₂ := by
  rw [← h₁, ← h₂]

/-- Claim C8 witness: the determinism theorem at rate 1 (threshold 2^64) and
traceId 42, both observed calls returning true. -/
theorem c8_sampler_deterministic_witness :
    isSample (2 ^ 64) 42 = true ∧ (true : Bool) = true :=
  ⟨by decide, c8_sampler_deterministic (2 ^ 64) 42 true true (by decide) (by decide)⟩

/-- Claim C6: sampled is decided exactly once, at root creation, by consulting
the sampler; newChildContext copies the parent's sampled verbatim, every
descendant along any chain of child creations keeps the root's sampled value,
and child creation through startSpan is independent of the configured sampler
(the sampler is never re-invoked for a child). -/
theorem c6_sampled_decided_once :
    (∀ (sampler : Nat → Bool) (tid sid : Nat),
        (newRootContext (sampler tid) tid sid).sampled = sampler tid) ∧
    (∀ (parent : SpanContext) (sid : Nat),
        (newChildContext parent sid).sampled = parent.sampled) ∧
    (∀ (root : SpanContext) (sids : List Nat),
        (sids.foldl newChildContext root).sampled = root.sampled) ∧
    (∀ (s₁ s₂ : Nat → Bool) (now : Nat) (name : Str) (par : SpanContext)
        (st : Option Nat) (tags : Option (List (Str × Scalar))) (tid sid : Nat),
        startSpanModel s₁ now ⟨name, .plain par, st, tags⟩ tid sid =
          startSpanModel s₂ now ⟨name, .plain par, st, tags⟩ tid sid) := by
  refine ⟨fun _ _ _ => rfl, fun _ _ => rfl, ?_, fun _ _ _ _ _ _ _ _ _ => rfl⟩
  intro root sids
  induction sids generalizing root with
  | nil => rfl
  | cons s t ih => exact (ih (newChildContext root s)).trans rfl

/-- Claim C9: startSpan returns a span in the Open state, recording the given
operationName, a startTime that is the supplied one and defaults to the
current time when omitted, and the supplied initial tags. -/
theorem c9_startSpan_fields (sampler : Nat → Bool) (now : Nat)
    (fields : StartFields) (tid sid : Nat) :
    (startSpanModel sampler now fields tid sid).state = .opened ∧
    (startSpanModel sampler now fields tid sid).operationName = fields.operationName ∧
    (startSpanModel sampler now fields tid sid).startTime = fields.startTime.getD now ∧
    (fields.startTime = none → (startSpanModel sampler now fields tid sid).startTime = now) ∧
    (∀ t, fields.startTime = some t →
      (startSpanModel sampler now fields tid sid).startTime = t) ∧
    (startSpanModel sampler now fields tid sid).tags = fields.tags.getD [] := by
  refine ⟨rfl, rfl, rfl, ?_, ?_, rfl⟩
  · intro h
    simp [startSpanModel, h]
  · intro t h
    simp [startSpanModel, h]

/-- Claim C9 witness: the theorem at concrete fields - with startTime omitted
the span starts at the current time 99, with startTime 7 supplied it starts
at 7. -/
theorem c9_startSpan_fields_witness :
    (startSpanModel (fun _ => true) 99 ⟨"op-a".toList, .absent, none, none⟩ 1 2).startTime = 99 ∧
    (startSpanModel (fun _ => true) 99 ⟨"op-a".toList, .absent, some 7, none⟩ 1 2).startTime = 7 :=
  ⟨(c9_startSpan_fields (fun _ => true) 99 ⟨"op-a".toList, .absent, none, none⟩ 1 2).2.2.2.1 rfl,
   (c9_startSpan_fields (fun _ => true) 99 ⟨"op-a".toList, .absent, some 7, none⟩ 1 2).2.2.2.2.1 7 rfl⟩

/-- Claim C10: when fields.parent is an interface object whose imp is a
function, startSpan (src/tracer.js) replaces it with the result of calling
imp() before constructing the span - so a wrapped parent yields exactly the
span its unwrapped value yields - and any other parent value is used as
given. -/
theorem c10_parent_imp_unwrapped :
    (∀ (r : JsParent), resolveParentArg (.wrapped r) = r) ∧
    resolveParentArg .absent = .absent ∧
    (∀ (c : SpanContext), resolveParentArg (.plain c) = .plain c) ∧
    (∀ (sampler : Nat → Bool) (now : Nat) (name : Str) (c : SpanContext)
        (st : Option Nat) (tags : Option (List (Str × Scalar))) (tid sid : Nat),
        startSpanModel sampler now ⟨name, .wrapped (.plain c), st, tags⟩ tid sid =
          startSpanModel sampler now ⟨name, .plain c, st, tags⟩ tid sid) ∧
    (∀ (sampler : Nat → Bool) (now : Nat) (name : Str)
        (st : Option Nat) (tags : Option (List (Str × Scalar))) (tid sid : Nat),
        startSpanModel sampler now ⟨name, .wrapped .absent, st, tags⟩ tid sid =
          startSpanModel sampler now ⟨name, .absent, st, tags⟩ tid sid) :=
  ⟨fun _ => rfl, rfl, fun _ => rfl, fun _ _ _ _ _ _ _ _ => rfl, fun _ _ _ _ _ _ _ => rfl⟩

/- ## Claims about baggage -/

/-- Claim C5: setBaggageItem validates the key against the baggage-key pattern
[a-z0-9][-a-z0-9]* (matched case-insensitively, keys being case-insensitive
per spec section 3): a non-matching key fails with InvalidBaggageKey and no
updated context is produced - the existing baggage mapping is left unchanged -
while a matching key is stored lower-cased. -/
theorem c5_setBaggageItem (ctx : SpanContext) (k v : Str) :
    (baggageKeyValid k = false →
      setBaggageItemCtx ctx k v = .error .invalidBaggageKey ∧
      (∀ (σ : Store) (h : Nat), storeSetBaggage σ h k v = .error .invalidBaggageKey)) ∧
    (baggageKeyValid k = true →
      setBaggageItemCtx ctx k v =
        .ok { ctx with baggage := setEntry ctx.baggage (toLowerStr k) v } ∧
      (toLowerStr k, v) ∈ setEntry ctx.baggage (toLowerStr k) v) := by
  constructor
  · intro h
    exact ⟨by simp [setBaggageItemCtx, h], fun σ hd => by simp [storeSetBaggage, h]⟩
  · intro h
    exact ⟨by simp [setBaggageItemCtx, h], setEntry_self_mem _ _ _⟩

/-- Claim C5 witness: the theorem at the invalid key "up!" (fails, store
untouched) and at the valid mixed-case key "OTA" (stored as "ota"). -/
theorem c5_setBaggageItem_witness :
    setBaggageItemCtx sampleCtx "up!".toList "v".toList = .error .invalidBaggageKey ∧
    setBaggageItemCtx sampleCtx "OTA".toList "v1".toList =
      .ok { sampleCtx with baggage := [("ota".toList, "v1".toList)] } ∧
    ("ota".toList, "v1".toList) ∈ setEntry sampleCtx.baggage "ota".toList "v1".toList :=
  ⟨((c5_setBaggageItem sampleCtx "up!".toList "v".toList).1 (by decide)).1,
   by simpa using (c5_setBaggageItem sampleCtx "OTA".toList "v1".toList).2 (by decide)⟩

/-- Claim C7: creating a child copies the parent's baggage into the child at
creation time, and a subsequent setBaggageItem on the child rewrites only the
child's store entry: the parent's context and every sibling handle are
unchanged. -/
theorem c7_baggage_isolation (σ : Store) (pk ck sid : Nat) (k v : Str)
    (P : SpanContext) (σ' : Store)
    (hP : storeLookup σ pk = some P)
    (hck : ck ≠ pk)
    (hset : storeSetBaggage (createChild σ pk ck sid) ck k v = .ok σ') :
    storeLookup (createChild σ pk ck sid) ck = some (newChildContext P sid) ∧
    (newChildContext P sid).baggage = P.baggage ∧
    (∀ j, j ≠ ck → storeLookup σ' j = storeLookup (createChild σ pk ck sid) j) ∧
    storeLookup σ' pk = some P := by
  have hcc : createChild σ pk ck sid = (ck, newChildContext P sid) :: σ := by
    simp [createChild, hP]
  have hvalid : baggageKeyValid k = true := by
    by_contra hb
    simp [storeSetBaggage, Bool.of_not_eq_true hb] at hset
  have hσ' : σ' = (createChild σ pk ck sid).map fun e =>
      if e.1 = ck then (e.1, updBaggage k v e.2) else e := by
    rw [storeSetBaggage, if_pos hvalid] at hset
    exact (Except.ok.inj hset).symm
  have hframe : ∀ j, j ≠ ck → storeLookup σ' j = storeLookup (createChild σ pk ck sid) j := by
    intro j hj
    rw [hσ']
    exact storeLookup_map_update _ ck j _ hj
  refine ⟨?_, rfl, hframe, ?_⟩
  · rw [hcc, storeLookup_cons, if_pos rfl]
  · rw [hframe pk (fun hc => hck hc.symm), hcc, storeLookup_cons, if_neg hck, hP]

/-- A concrete parent context holding baggage a=1. -/
def parentC : SpanContext :=
  { traceId := 1, spanId := 10, parentId := none, sampled := true,
    baggage := [("a".toList, "1".toList)] }

/-- A store holding the parent at handle 1. -/
def demoStore : Store := [(1, parentC)]

/-- The store after creating a child at handle 2 and setting b=2 on it. -/
def demoStore' : Store :=
  [(2, { traceId := 1, spanId := 11, parentId := some 10, sampled := true,
         baggage := [("a".toList, "1".toList), ("b".toList, "2".toList)] }),
   (1, parentC)]

/-- Claim C7 witness: the isolation theorem at the concrete parent with
baggage a=1 - the child inherits that baggage, and setting b=2 on the child
leaves the parent's entry exactly as it was. -/
theorem c7_baggage_isolation_witness :
    storeLookup (createChild demoStore 1 2 11) 2 = some (newChildContext parentC 11) ∧
    (newChildContext parentC 11).baggage = parentC.baggage ∧
    (∀ j, j ≠ 2 → storeLookup demoStore' j = storeLookup (createChild demoStore 1 2 11) j) ∧
    storeLookup demoStore' 1 = some parentC :=
  c7_baggage_isolation demoStore 1 2 11 "b".toList "2".toList parentC demoStore'
    rfl (by decide) rfl

/- ## Decimal numeral round trip -/

theorem ofDigitsLE_digitsRevAux (fuel : Nat) :
    ∀ n, n ≤ fuel → ofDigitsLE (digitsRevAux fuel n) = n := by
  induction fuel with
  | zero =>
    intro n hn
    interval_cases n
    rfl
  | succ f ih =>
    intro n hn
    by_cases h0 : n = 0
    · simp [digitsRevAux, h0, ofDigitsLE]
    · have hdiv : n / 10 < n := Nat.div_lt_self (Nat.pos_of_ne_zero h0) (by omega)
      have : ofDigitsLE (digitsRevAux f (n / 10)) = n / 10 := ih _ (by omega)
      simp only [digitsRevAux, if_neg h0, ofDigitsLE, this]
      omega

theorem digitsRevAux_lt (fuel : Nat) :
    ∀ n d, d ∈ digitsRevAux fuel n → d < 10 := by
  induction fuel with
  | zero => intro n d hd; simp [digitsRevAux] at hd
  | succ f ih =>
    intro n d hd
    by_cases h0 : n = 0
    · simp [digitsRevAux, h0] at hd
    · simp only [digitsRevAux, if_neg h0, List.mem_cons] at hd
      rcases hd with h | h
      · omega
      · exact ih _ _ h

theorem digitChar_props : ∀ d, d < 10 →
    (Nat.digitChar d).isDigit = true ∧ charDigitVal (Nat.digitChar d) = d ∧
      Nat.digitChar d ≠ ':' ∧ Nat.digitChar d ≠ 'x' := by decide

theorem encodeNat_ne_nil (n : Nat) : encodeNat n ≠ [] := by
  by_cases h0 : n = 0
  · simp [encodeNat, h0]
  · obtain ⟨f, hf⟩ : ∃ f, n = f + 1 := ⟨n - 1, by omega⟩
    simp [encodeNat, h0, hf, digitsRevAux]

theorem encodeNat_chars (n : Nat) : ∀ c ∈ encodeNat n,
    c.isDigit = true ∧ c ≠ ':' ∧ c ≠ 'x' := by
  intro c hc
  by_cases h0 : n = 0
  · rw [encodeNat, if_pos h0] at hc
    simp at hc
    subst hc
    exact ⟨by decide, by decide, by decide⟩
  · rw [encodeNat, if_neg h0] at hc
    rw [List.mem_reverse, List.mem_map] at hc
    obtain ⟨d, hd, hdc⟩ := hc
    have hlt := digitsRevAux_lt n n d hd
    obtain ⟨h1, _, h3, h4⟩ := digitChar_props d hlt
    subst hdc
    exact ⟨h1, h3, h4⟩

theorem decodeNat_encodeNat (n : Nat) : decodeNat (encodeNat n) = some n := by
  by_cases h0 : n = 0
  · subst h0; decide
  · have hne := encodeNat_ne_nil n
    have hdig : (encodeNat n).all Char.isDigit = true := by
      rw [List.all_eq_true]
      intro c hc
      exact (encodeNat_chars n c hc).1
    rw [decodeNat, if_pos ⟨hne, hdig⟩]
    congr 1
    rw [encodeNat, if_neg h0]
    rw [List.map_reverse, List.reverse_reverse, List.map_map]
    have hmap : (digitsRevAux n n).map (charDigitVal ∘ Nat.digitChar) =
        (digitsRevAux n n).map id := by
      apply List.map_congr_left
      intro d hd
      exact (digitChar_props d (digitsRevAux_lt n n d hd)).2.1
    rw [hmap, List.map_id]
    exact ofDigitsLE_digitsRevAux n n le_rfl

/- ## Splitting on colons -/

theorem splitColon_no_colon (s : Str) (h : ∀ c ∈ s, c ≠ ':') : splitColon s = [s] := by
  induction s with
  | nil => rfl
  | cons c rest ih =>
    have hc : c ≠ ':' := h c (List.mem_cons_self c rest)
    have := ih fun x hx => h x (List.mem_cons_of_mem c hx)
    rw [splitColon, if_neg hc, this]

theorem splitColon_append (s t : Str) (h : ∀ c ∈ s, c ≠ ':') :
    splitColon (s ++ ':' :: t) = s :: splitColon t := by
  induction s with
  | nil => simp [splitColon]
  | cons c rest ih =>
    have hc : c ≠ ':' := h c (List.mem_cons_self c rest)
    have hrest := ih fun x hx => h x (List.mem_cons_of_mem c hx)
    rw [List.cons_append, splitColon, if_neg hc, hrest]

/- ## TextMap codec round trip -/

theorem parseIdentity_identVal (C : SpanContext) :
    parseIdentity (identVal C) = some (C.traceId, C.spanId, C.parentId, C.sampled) := by
  have hT : ∀ c ∈ encodeNat C.traceId, c ≠ ':' := fun c hc => (encodeNat_chars _ c hc).2.1
  have hS : ∀ c ∈ encodeNat C.spanId, c ≠ ':' := fun c hc => (encodeNat_chars _ c hc).2.1
  have hP : ∀ c ∈ (match C.parentId with
      | none => parentSentinel
      | some p => encodeNat p), c ≠ ':' := by
    cases C.parentId with
    | none => intro c hc; simp [parentSentinel] at hc; subst hc; decide
    | some p => exact fun c hc => (encodeNat_chars _ c hc).2.1
  have hF : ∀ c ∈ encodeBoolStr C.sampled, c ≠ ':' := by
    cases C.sampled <;> intro c hc <;> simp [encodeBoolStr] at hc <;> subst hc <;> decide
  rw [parseIdentity, identVal, splitColon_append _ _ hT, splitColon_append _ _ hS,
    splitColon_append _ _ hP, splitColon_no_colon _ hF]
  show parseParts _ _ _ _ = _
  rw [parseParts, decodeNat_encodeNat, decodeNat_encodeNat]
  cases hpid : C.parentId with
  | none =>
    cases hs : C.sampled <;> simp [parentSentinel, decodeBoolStr, encodeBoolStr]
  | some p =>
    have hne : encodeNat p ≠ parentSentinel := by
      intro he
      have hx : 'x' ∈ encodeNat p := by rw [he]; simp [parentSentinel]
      exact (encodeNat_chars p 'x' hx).2.2 rfl
    rw [if_neg hne, decodeNat_encodeNat]
    cases hs : C.sampled <;> simp [decodeBoolStr, encodeBoolStr]

theorem bagOfEntry_namespaced (k v : Str) : bagOfEntry (bagPfx ++ k, v) = some (k, v) := by
  simp [bagOfEntry, List.take_left, List.drop_left]

theorem bagOfEntry_idKey (v : Str) : bagOfEntry (idKey, v) = none := by
  have h : ¬(bagPfx = List.take bagPfx.length idKey) := by decide
  simp [bagOfEntry, h]

theorem filterMap_bag_roundtrip (b : Baggage) :
    ((b.map fun kv => (bagPfx ++ kv.1, kv.2)).filterMap bagOfEntry) = b := by
  induction b with
  | nil => rfl
  | cons kv rest ih =>
    simp only [List.map_cons, List.filterMap_cons, bagOfEntry_namespaced, ih]

/-- The core of the text round trip: extracting right after injecting into an
empty carrier gives back exactly the injected context. -/
theorem textMap_roundtrip (C : SpanContext) :
    textMapExtract (textMapInject C []) = some C := by
  have hfind : findEntry ((idKey, identVal C) ::
      C.baggage.map fun kv => (bagPfx ++ kv.1, kv.2)) idKey = some (identVal C) := by
    rw [findEntry, if_pos rfl]
  simp only [textMapInject, List.nil_append, textMapExtract, hfind, parseIdentity_identVal,
    List.filterMap_cons, bagOfEntry_idKey, filterMap_bag_roundtrip]

/- ## Binary reader lemmas -/

theorem readBytes_exact (bs rest : Bytes) (n : Nat) (h : bs.length = n) :
    readBytes n (bs ++ rest) = .ok (bs, rest) := by
  rw [readBytes, if_pos (by simp [← h]), List.take_left' h, List.drop_left' h]

theorem readBytes_ok (n : Nat) (s out rest : Bytes) (h : readBytes n s = .ok (out, rest)) :
    out.length = n ∧ n ≤ s.length ∧ s = out ++ rest := by
  rw [readBytes] at h
  split at h
  · rename_i hle
    obtain ⟨ho, hr⟩ := Prod.mk.injEq .. ▸ (Except.ok.inj h)
    subst ho hr
    exact ⟨List.length_take_of_le hle, hle, (List.take_append_drop n s).symm⟩
  · exact absurd h (by simp)

theorem readBytes_short (n : Nat) (s : Bytes) (h : s.length < n) :
    readBytes n s = .error .malformedCarrier := by
  rw [readBytes, if_neg (by omega)]

theorem readBytes_error (n : Nat) (s : Bytes) (e : TracerErr)
    (h : readBytes n s = .error e) : e = .malformedCarrier := by
  rw [readBytes] at h
  split at h
  · exact absurd h (by simp)
  · injection h with h'
    exact h'.symm

theorem encodeBE8_length (n : Nat) : (encodeBE8 n).length = 8 := rfl

theorem beVal_encodeBE8 (n : Nat) (h : n < 2 ^ 64) : beVal (encodeBE8 n) = n := by
  simp only [beVal, encodeBE8, List.foldl]
  omega

theorem readBE8_enc (n : Nat) (rest : Bytes) (h : n < 2 ^ 64) :
    readBE8 (encodeBE8 n ++ rest) = .ok (n, rest) := by
  rw [readBE8, readBytes_exact _ _ _ (encodeBE8_length n)]
  show Except.ok (beVal (encodeBE8 n), rest) = _
  rw [beVal_encodeBE8 n h]

theorem readBE8_ok (s : Bytes) (m : Nat) (rest : Bytes)
    (h : readBE8 s = .ok (m, rest)) : 8 ≤ s.length ∧ rest.length + 8 = s.length := by
  rw [readBE8] at h
  split at h
  · rename_i bs r heq
    obtain ⟨_, hlen, hs⟩ := readBytes_ok _ _ _ _ heq
    injection h with h'
    obtain ⟨_, hr⟩ := Prod.mk.injEq .. ▸ h'
    subst hr
    constructor
    · exact hlen
    · rw [hs]
      simp
      omega
  · exact absurd h (by simp)

theorem readBE8_error (s : Bytes) (e : TracerErr) (h : readBE8 s = .error e) :
    e = .malformedCarrier := by
  rw [readBE8] at h
  split at h
  · exact absurd h (by simp)
  · rename_i heq
    injection h with h'
    exact h' ▸ readBytes_error _ _ _ heq

theorem readByte_cons (b : Nat) (rest : Bytes) : readByte (b :: rest) = .ok (b, rest) := by
  have h1 : readBytes 1 (b :: rest) = .ok ([b], rest) := by
    have := readBytes_exact [b] rest 1 rfl
    rwa [List.singleton_append] at this
  rw [readByte, h1]
  show Except.ok (beVal [b], rest) = _
  simp [beVal]

theorem readByte_ok (s : Bytes) (m : Nat) (rest : Bytes)
    (h : readByte s = .ok (m, rest)) : 1 ≤ s.length ∧ rest.length + 1 = s.length := by
  rw [readByte] at h
  split at h
  · rename_i bs r heq
    obtain ⟨_, hlen, hs⟩ := readBytes_ok _ _ _ _ heq
    injection h with h'
    obtain ⟨_, hr⟩ := Prod.mk.injEq .. ▸ h'
    subst hr
    refine ⟨hlen, ?_⟩
    rw [hs]
    simp
    omega
  · exact absurd h (by simp)

theorem readByte_error (s : Bytes) (e : TracerErr) (h : readByte s = .error e) :
    e = .malformedCarrier := by
  rw [readByte] at h
  split at h
  · exact absurd h (by simp)
  · rename_i heq
    injection h with h'
    exact h' ▸ readBytes_error _ _ _ heq

/- ## Varint lemmas -/

theorem readVarint_encAux (fuel : Nat) :
    ∀ n rest, n < fuel → readVarint (encVarintAux fuel n ++ rest) = .ok (n, rest) := by
  induction fuel with
  | zero => intro n rest hn; omega
  | succ f ih =>
    intro n rest hn
    by_cases h1 : n < 128
    · rw [encVarintAux, if_pos h1, List.singleton_append, readVarint, if_pos h1]
    · have hdiv : n / 128 < n := Nat.div_lt_self (by omega) (by omega)
      rw [encVarintAux, if_neg h1, List.cons_append, readVarint,
        if_neg (by omega), ih (n / 128) rest (by omega)]
      show Except.ok ((128 + n % 128) % 128 + 128 * (n / 128), rest) = _
      have harg : (128 + n % 128) % 128 + 128 * (n / 128) = n := by omega
      rw [harg]

theorem readVarint_enc (n : Nat) (rest : Bytes) :
    readVarint (encVarint n ++ rest) = .ok (n, rest) :=
  readVarint_encAux (n + 1) n rest (by omega)

theorem readVarint_ok_ne_nil (s : Bytes) (m : Nat) (rest : Bytes)
    (h : readVarint s = .ok (m, rest)) : 1 ≤ s.length := by
  cases s with
  | nil => exact absurd h (by simp [readVarint])
  | cons b t => simp

theorem readVarint_error (s : Bytes) : ∀ e, readVarint s = .error e →
    e = .malformedCarrier := by
  induction s with
  | nil =>
    intro e h
    rw [readVarint] at h
    injection h with h'
    exact h'.symm
  | cons b t ih =>
    intro e h
    rw [readVarint] at h
    split at h
    · exact absurd h (by simp)
    · split at h
      · exact absurd h (by simp)
      · rename_i heq
        injection h with h'
        exact h' ▸ ih _ heq

/- ## UTF-8 round trip -/

theorem charOfValid?_toNat (c : Char) : charOfValid? c.toNat = some c := by
  rw [charOfValid?, dif_pos (show (Char.toNat c).isValidChar from c.valid)]
  rw [Char.ofNat_toNat]

theorem consChar?_toNat (c : Char) (r : Option Str) :
    consChar? c.toNat r = r.map (c :: ·) := by
  rw [consChar?, charOfValid?_toNat, Option.some_bind]

theorem decodeChar1_cons (b : Nat) (rest : Bytes) :
    decodeChar1 (b :: rest) =
      (if b < 128 then some (b, rest)
      else if b < 192 then none
      else if b < 224 then
        match rest with
        | b2 :: r2 =>
          if 128 ≤ b2 ∧ b2 < 192 then some ((b - 192) * 64 + (b2 - 128), r2) else none
        | [] => none
      else if b < 240 then
        match rest with
        | b2 :: b3 :: r3 =>
          if (128 ≤ b2 ∧ b2 < 192) ∧ (128 ≤ b3 ∧ b3 < 192) then
            some ((b - 224) * 4096 + (b2 - 128) * 64 + (b3 - 128), r3)
          else none
        | _ => none
      else if b < 248 then
        match rest with
        | b2 :: b3 :: b4 :: r4 =>
          if (128 ≤ b2 ∧ b2 < 192) ∧ (128 ≤ b3 ∧ b3 < 192) ∧ (128 ≤ b4 ∧ b4 < 192) then
            some ((b - 240) * 262144 + (b2 - 128) * 4096 + (b3 - 128) * 64 + (b4 - 128), r4)
          else none
        | _ => none
      else none) := rfl

set_option maxRecDepth 8192 in
theorem decodeChar1_utf8 (c : Char) (rest : Bytes) :
    decodeChar1 (utf8Char c ++ rest) = some (c.toNat, rest) := by
  have hv : c.toNat < 55296 ∨ (57343 < c.toNat ∧ c.toNat < 1114112) := c.valid
  rcases Nat.lt_or_ge c.toNat 128 with h1 | h1
  · rw [utf8Char, if_pos h1, List.singleton_append, decodeChar1_cons, if_pos h1]
  · rcases Nat.lt_or_ge c.toNat 2048 with h2 | h2
    · rw [utf8Char, if_neg (by omega), if_pos h2,
        show [192 + c.toNat / 64, 128 + c.toNat % 64] ++ rest =
          (192 + c.toNat / 64) :: (128 + c.toNat % 64) :: rest from rfl,
        decodeChar1_cons, if_neg (by omega : ¬(192 + c.toNat / 64 < 128)),
        if_neg (by omega : ¬(192 + c.toNat / 64 < 192)),
        if_pos (by omega : 192 + c.toNat / 64 < 224)]
      show (if 128 ≤ 128 + c.toNat % 64 ∧ 128 + c.toNat % 64 < 192 then
          some ((192 + c.toNat / 64 - 192) * 64 + (128 + c.toNat % 64 - 128), rest)
        else none) = _
      rw [if_pos ⟨by omega, by omega⟩]
      congr 2
      omega
    · rcases Nat.lt_or_ge c.toNat 65536 with h3 | h3
      · rw [utf8Char, if_neg (by omega), if_neg (by omega), if_pos h3,
          show [224 + c.toNat / 4096, 128 + c.toNat / 64 % 64, 128 + c.toNat % 64] ++ rest =
            (224 + c.toNat / 4096) :: (128 + c.toNat / 64 % 64) :: (128 + c.toNat % 64) ::
              rest from rfl,
          decodeChar1_cons, if_neg (by omega : ¬(224 + c.toNat / 4096 < 128)),
          if_neg (by omega : ¬(224 + c.toNat / 4096 < 192)),
          if_neg (by omega : ¬(224 + c.toNat / 4096 < 224)),
          if_pos (by omega : 224 + c.toNat / 4096 < 240)]
        show (if (128 ≤ 128 + c.toNat / 64 % 64 ∧ 128 + c.toNat / 64 % 64 < 192) ∧
            (128 ≤ 128 + c.toNat % 64 ∧ 128 + c.toNat % 64 < 192) then
          some ((224 + c.toNat / 4096 - 224) * 4096 + (128 + c.toNat / 64 % 64 - 128) * 64 +
            (128 + c.toNat % 64 - 128), rest)
        else none) = _
        rw [if_pos ⟨⟨by omega, by omega⟩, by omega, by omega⟩]
        congr 2
        omega
      · have hlt : c.toNat < 1114112 := by omega
        rw [utf8Char, if_neg (by omega), if_neg (by omega), if_neg (by omega),
          show [240 + c.toNat / 262144, 128 + c.toNat / 4096 % 64, 128 + c.toNat / 64 % 64,
            128 + c.toNat % 64] ++ rest =
            (240 + c.toNat / 262144) :: (128 + c.toNat / 4096 % 64) ::
              (128 + c.toNat / 64 % 64) :: (128 + c.toNat % 64) :: rest from rfl,
          decodeChar1_cons, if_neg (by omega : ¬(240 + c.toNat / 262144 < 128)),
          if_neg (by omega : ¬(240 + c.toNat / 262144 < 192)),
          if_neg (by omega : ¬(240 + c.toNat / 262144 < 224)),
          if_neg (by omega : ¬(240 + c.toNat / 262144 < 240)),
          if_pos (by omega : 240 + c.toNat / 262144 < 248)]
        show (if (128 ≤ 128 + c.toNat / 4096 % 64 ∧ 128 + c.toNat / 4096 % 64 < 192) ∧
            (128 ≤ 128 + c.toNat / 64 % 64 ∧ 128 + c.toNat / 64 % 64 < 192) ∧
            (128 ≤ 128 + c.toNat % 64 ∧ 128 + c.toNat % 64 < 192) then
          some ((240 + c.toNat / 262144 - 240) * 262144 +
            (128 + c.toNat / 4096 % 64 - 128) * 4096 + (128 + c.toNat / 64 % 64 - 128) * 64 +
            (128 + c.toNat % 64 - 128), rest)
        else none) = _
        rw [if_pos ⟨⟨by omega, by omega⟩, ⟨by omega, by omega⟩, by omega, by omega⟩]
        congr 2
        omega

theorem utf8Char_ne_nil (c : Char) : utf8Char c ≠ [] := by
  rw [utf8Char]
  repeat' split
  all_goals simp

theorem utf8Char_decode (c : Char) (rest : Bytes) :
    decodeUtf8 (utf8Char c ++ rest) = (decodeUtf8 rest).map (c :: ·) := by
  obtain ⟨b, t, hbt⟩ := List.exists_cons_of_ne_nil
    (show utf8Char c ++ rest ≠ [] by
      cases hu : utf8Char c with
      | nil => exact absurd hu (utf8Char_ne_nil c)
      | cons x xs => simp)
  rw [hbt, decodeUtf8]
  have hd1 : decodeChar1 (b :: t) = some (c.toNat, rest) := by
    rw [← hbt, decodeChar1_utf8]
  split
  · rename_i n r heq
    rw [heq] at hd1
    obtain ⟨hn, hr⟩ := Prod.mk.injEq .. ▸ (Option.some.inj hd1)
    rw [hn, hr, consChar?_toNat]
  · rename_i heq
    rw [heq] at hd1
    exact absurd hd1 (by simp)

theorem decodeUtf8_utf8Str (s : Str) : decodeUtf8 (utf8Str s) = some s := by
  induction s with
  | nil =>
    show decodeUtf8 [] = some []
    rw [decodeUtf8]
  | cons c t ih =>
    have h : utf8Str (c :: t) = utf8Char c ++ utf8Str t := by
      simp [utf8Str]
    rw [h, utf8Char_decode, ih]
    rfl

/- ## Length-prefixed string and item round trips -/

theorem readStr_enc (s : Str) (rest : Bytes) :
    readStr (encStr s ++ rest) = .ok (s, rest) := by
  rw [readStr, encStr, List.append_assoc, readVarint_enc]
  simp only [Bind.bind, Except.bind, readBytes_exact (utf8Str s) rest _ rfl,
    decodeUtf8_utf8Str, pure, Except.pure]

theorem readItems_enc (items : Baggage) (rest : Bytes) :
    readItems items.length (encItems items ++ rest) = .ok (items, rest) := by
  induction items generalizing rest with
  | nil => rfl
  | cons kv t ih =>
    have h : encItems (kv :: t) ++ rest =
        encStr kv.1 ++ (encStr kv.2 ++ (encItems t ++ rest)) := by
      simp [encItems, List.append_assoc]
    rw [List.length_cons, readItems, h, readStr_enc]
    simp only [Bind.bind, Except.bind, readStr_enc, ih, pure, Except.pure]

/-- The core of the binary round trip: extracting the injected buffer gives
back exactly the injected context. -/
theorem binary_roundtrip (C : SpanContext) (h : validCtx C = true) :
    binaryExtract (binaryInject C) = .ok C := by
  rw [validCtx] at h
  simp only [Bool.and_eq_true, decide_eq_true_eq] at h
  obtain ⟨⟨ht, hs⟩, hp⟩ := h
  rw [binaryInject]
  simp only [List.append_assoc, List.cons_append]
  rw [show encItems C.baggage = encItems C.baggage ++ [] from (List.append_nil _).symm]
  simp only [binaryExtract, Bind.bind, Except.bind, readBE8_enc _ _ ht, readBE8_enc _ _ hs,
    readBE8_enc _ _ hp, readByte_cons, readVarint_enc, readItems_enc, pure, Except.pure]
  cases hpid : C.parentId with
  | none => cases hsm : C.sampled <;> simp [hpid, hsm] <;> rw [← hpid, ← hsm]
  | some p => cases hsm : C.sampled <;> simp [hpid, hsm] <;> rw [← hpid, ← hsm]

/- ## Claim C1: codec round trips -/

/-- Claim C1: for every valid SpanContext, encoding into an empty carrier with
either codec and decoding that carrier yields a context with the same traceId,
sampled flag, full baggage set and spanId - in fact exactly the same context -
and the injected context's spanId becomes the parentId of any context the
receiver subsequently derives with newChildContext. -/
theorem c1_codec_roundtrip (C : SpanContext) (h : validCtx C = true) :
    textMapExtract (textMapInject C []) = some C ∧
    binaryExtract (binaryInject C) = .ok C ∧
    ∀ fresh, (newChildContext C fresh).parentId = some C.spanId :=
  ⟨textMap_roundtrip C, binary_roundtrip C h, fun _ => rfl⟩

/-- The boundary context with the largest nonzero 64-bit traceId the spec
names, 0xFFFFFFFFFFFFFFFE. -/
def boundaryHiCtx : SpanContext :=
  { traceId := 18446744073709551614, spanId := 3, parentId := some 7, sampled := true,
    baggage := [("ota".toList, "v1".toList)] }

/-- The boundary context with traceId 1. -/
def boundaryLoCtx : SpanContext :=
  { traceId := 1, spanId := 2, parentId := none, sampled := false,
    baggage := [] }

/-- Claim C1 witness: the round-trip theorem at both boundary traceId values
the claim names, 1 and 0xFFFFFFFFFFFFFFFE. -/
theorem c1_codec_roundtrip_witness :
    (textMapExtract (textMapInject boundaryHiCtx []) = some boundaryHiCtx ∧
      binaryExtract (binaryInject boundaryHiCtx) = .ok boundaryHiCtx ∧
      ∀ fresh, (newChildContext boundaryHiCtx fresh).parentId = some boundaryHiCtx.spanId) ∧
    (textMapExtract (textMapInject boundaryLoCtx []) = some boundaryLoCtx ∧
      binaryExtract (binaryInject boundaryLoCtx) = .ok boundaryLoCtx ∧
      ∀ fresh, (newChildContext boundaryLoCtx fresh).parentId = some boundaryLoCtx.spanId) :=
  ⟨c1_codec_roundtrip boundaryHiCtx (by decide), c1_codec_roundtrip boundaryLoCtx (by decide)⟩

/- ## Claim C3: bounds discipline of binary extract -/

theorem readStr_error (s : Bytes) (e : TracerErr) (h : readStr s = .error e) :
    e = .malformedCarrier := by
  rw [readStr] at h
  cases h1 : readVarint s with
  | error e1 =>
    rw [h1] at h
    simp only [Bind.bind, Except.bind] at h
    injection h with h'
    exact h' ▸ readVarint_error s e1 h1
  | ok r1 =>
    obtain ⟨len, s1⟩ := r1
    rw [h1] at h
    simp only [Bind.bind, Except.bind] at h
    cases h2 : readBytes len s1 with
    | error e2 =>
      rw [h2] at h
      simp only at h
      injection h with h'
      exact h' ▸ readBytes_error _ _ _ h2
    | ok r2 =>
      obtain ⟨bs, s2⟩ := r2
      rw [h2] at h
      simp only at h
      cases h3 : decodeUtf8 bs with
      | some chars => rw [h3] at h; exact absurd h (by simp [pure, Except.pure])
      | none =>
        rw [h3] at h
        injection h with h'
        exact h'.symm

theorem readItems_error : ∀ (count : Nat) (s : Bytes) (e : TracerErr),
    readItems count s = .error e → e = .malformedCarrier := by
  intro count
  induction count with
  | zero => intro s e h; exact absurd h (by simp [readItems])
  | succ k ih =>
    intro s e h
    rw [readItems] at h
    cases h1 : readStr s with
    | error e1 =>
      rw [h1] at h
      simp only [Bind.bind, Except.bind] at h
      injection h with h'
      exact h' ▸ readStr_error s e1 h1
    | ok r1 =>
      obtain ⟨k1, s1⟩ := r1
      rw [h1] at h
      simp only [Bind.bind, Except.bind] at h
      cases h2 : readStr s1 with
      | error e2 =>
        rw [h2] at h
        simp only at h
        injection h with h'
        exact h' ▸ readStr_error s1 e2 h2
      | ok r2 =>
        obtain ⟨v, s2⟩ := r2
        rw [h2] at h
        simp only at h
        cases h3 : readItems k s2 with
        | error e3 =>
          rw [h3] at h
          simp only at h
          injection h with h'
          exact h' ▸ ih s2 e3 h3
        | ok r3 =>
          obtain ⟨items, s3⟩ := r3
          rw [h3] at h
          exact absurd h (by simp [pure, Except.pure])

theorem binaryExtract_error (buf : Bytes) (e : TracerErr)
    (h : binaryExtract buf = .error e) : e = .malformedCarrier := by
  rw [binaryExtract] at h
  cases h1 : readBE8 buf with
  | error e1 =>
    rw [h1] at h
    simp only [Bind.bind, Except.bind] at h
    injection h with h'
    exact h' ▸ readBE8_error _ _ h1
  | ok r1 =>
    obtain ⟨t, s1⟩ := r1
    rw [h1] at h
    simp only [Bind.bind, Except.bind] at h
    cases h2 : readBE8 s1 with
    | error e2 =>
      rw [h2] at h
      simp only at h
      injection h with h'
      exact h' ▸ readBE8_error _ _ h2
    | ok r2 =>
      obtain ⟨sp, s2⟩ := r2
      rw [h2] at h
      simp only at h
      cases h3 : readByte s2 with
      | error e3 =>
        rw [h3] at h
        simp only at h
        injection h with h'
        exact h' ▸ readByte_error _ _ h3
      | ok r3 =>
        obtain ⟨flag, s3⟩ := r3
        rw [h3] at h
        simp only at h
        cases h4 : readBE8 s3 with
        | error e4 =>
          rw [h4] at h
          simp only at h
          injection h with h'
          exact h' ▸ readBE8_error _ _ h4
        | ok r4 =>
          obtain ⟨pid, s4⟩ := r4
          rw [h4] at h
          simp only at h
          cases h5 : readByte s4 with
          | error e5 =>
            rw [h5] at h
            simp only at h
            injection h with h'
            exact h' ▸ readByte_error _ _ h5
          | ok r5 =>
            obtain ⟨smp, s5⟩ := r5
            rw [h5] at h
            simp only at h
            cases h6 : readVarint s5 with
            | error e6 =>
              rw [h6] at h
              simp only at h
              injection h with h'
              exact h' ▸ readVarint_error s5 e6 h6
            | ok r6 =>
              obtain ⟨count, s6⟩ := r6
              rw [h6] at h
              simp only at h
              cases h7 : readItems count s6 with
              | error e7 =>
                rw [h7] at h
                simp only at h
                injection h with h'
                exact h' ▸ readItems_error count s6 e7 h7
              | ok r7 =>
                obtain ⟨items, s7⟩ := r7
                rw [h7] at h
                exact absurd h (by simp [pure, Except.pure])

theorem binaryExtract_ok_length (buf : Bytes) (ctx : SpanContext)
    (h : binaryExtract buf = .ok ctx) : 27 ≤ buf.length := by
  rw [binaryExtract] at h
  cases h1 : readBE8 buf with
  | error e1 => rw [h1] at h; exact absurd h (by simp [Bind.bind, Except.bind])
  | ok r1 =>
    obtain ⟨t, s1⟩ := r1
    rw [h1] at h
    simp only [Bind.bind, Except.bind] at h
    cases h2 : readBE8 s1 with
    | error e2 => rw [h2] at h; exact absurd h (by simp)
    | ok r2 =>
      obtain ⟨sp, s2⟩ := r2
      rw [h2] at h
      simp only at h
      cases h3 : readByte s2 with
      | error e3 => rw [h3] at h; exact absurd h (by simp)
      | ok r3 =>
        obtain ⟨flag, s3⟩ := r3
        rw [h3] at h
        simp only at h
        cases h4 : readBE8 s3 with
        | error e4 => rw [h4] at h; exact absurd h (by simp)
        | ok r4 =>
          obtain ⟨pid, s4⟩ := r4
          rw [h4] at h
          simp only at h
          cases h5 : readByte s4 with
          | error e5 => rw [h5] at h; exact absurd h (by simp)
          | ok r5 =>
            obtain ⟨smp, s5⟩ := r5
            rw [h5] at h
            simp only at h
            cases h6 : readVarint s5 with
            | error e6 => rw [h6] at h; exact absurd h (by simp)
            | ok r6 =>
              obtain ⟨count, s6⟩ := r6
              have l1 := readBE8_ok _ _ _ h1
              have l2 := readBE8_ok _ _ _ h2
              have l3 := readByte_ok _ _ _ h3
              have l4 := readBE8_ok _ _ _ h4
              have l5 := readByte_ok _ _ _ h5
              have l6 := readVarint_ok_ne_nil _ _ _ h6
              omega

theorem binaryExtract_short (buf : Bytes) (h : buf.length < 27) :
    binaryExtract buf = .error .malformedCarrier := by
  cases hb : binaryExtract buf with
  | ok ctx => exact absurd (binaryExtract_ok_length buf ctx hb) (by omega)
  | error e => rw [binaryExtract_error buf e hb]

theorem binaryExtract_overrun (t sp f pid smp L : Nat) (rest : Bytes)
    (ht : t < 2 ^ 64) (hs : sp < 2 ^ 64) (hp : pid < 2 ^ 64) (hL : rest.length < L) :
    binaryExtract (encodeBE8 t ++ (encodeBE8 sp ++ (f :: (encodeBE8 pid ++
      (smp :: (1 :: (encVarint L ++ rest))))))) = .error .malformedCarrier := by
  have h2 : readStr (encVarint L ++ rest) = .error .malformedCarrier := by
    rw [readStr, readVarint_enc]
    simp only [Bind.bind, Except.bind, readBytes_short L rest hL]
  have h1 : readVarint (1 :: (encVarint L ++ rest)) = .ok (1, encVarint L ++ rest) := by
    rw [readVarint, if_pos (by omega)]
  have h3 : readItems 1 (encVarint L ++ rest) = .error .malformedCarrier := by
    rw [show (1 : Nat) = 0 + 1 from rfl, readItems]
    simp only [Bind.bind, Except.bind, h2]
  rw [binaryExtract]
  simp only [Bind.bind, Except.bind, readBE8_enc _ _ ht, readBE8_enc _ _ hs,
    readBE8_enc _ _ hp, readByte_cons, h1, h3]

/-- Claim C3: binary extract is bounds-disciplined - a buffer shorter than the
fixed layout demands (the 26-byte header plus at least one count byte; the
empty buffer included) fails with MalformedCarrier; the one reading primitive
every field and every length-prefixed read goes through checks the bounds
before reading, succeeding exactly on the declared in-bounds prefix and
failing with MalformedCarrier instead of ever reading past the end; and a
declared item length that would read past the buffer end makes extract fail
with MalformedCarrier. -/
theorem c3_binary_extract_bounds :
    (∀ buf : Bytes, buf.length < 27 → binaryExtract buf = .error .malformedCarrier) ∧
    (∀ (n : Nat) (s out rest : Bytes), readBytes n s = .ok (out, rest) →
      out.length = n ∧ n ≤ s.length ∧ s = out ++ rest) ∧
    (∀ (n : Nat) (s : Bytes), s.length < n → readBytes n s = .error .malformedCarrier) ∧
    (∀ (buf : Bytes) (e : TracerErr), binaryExtract buf = .error e →
      e = .malformedCarrier) ∧
    (∀ (t sp f pid smp L : Nat) (rest : Bytes), t < 2 ^ 64 → sp < 2 ^ 64 →
      pid < 2 ^ 64 → rest.length < L →
      binaryExtract (encodeBE8 t ++ (encodeBE8 sp ++ (f :: (encodeBE8 pid ++
        (smp :: (1 :: (encVarint L ++ rest))))))) = .error .malformedCarrier) :=
  ⟨binaryExtract_short, readBytes_ok, readBytes_short, binaryExtract_error,
   fun t sp f pid smp L rest ht hs hp hL =>
     binaryExtract_overrun t sp f pid smp L rest ht hs hp hL⟩

/-- Claim C3 witness: the bounds theorem at the empty buffer, at a concrete
in-bounds and a concrete out-of-bounds readBytes, and at a buffer whose one
declared key length (5) overruns its empty remainder. -/
theorem c3_binary_extract_bounds_witness :
    binaryExtract [] = .error .malformedCarrier ∧
    ([5, 6].length = 2 ∧ 2 ≤ ([5, 6] : Bytes).length ∧ ([5, 6] : Bytes) = [5, 6] ++ []) ∧
    readBytes 3 [5, 6] = .error .malformedCarrier ∧
    binaryExtract (encodeBE8 1 ++ (encodeBE8 2 ++ (0 :: (encodeBE8 0 ++
      (1 :: (1 :: (encVarint 5 ++ []))))))) = .error .malformedCarrier :=
  ⟨c3_binary_extract_bounds.1 [] (by decide),
   c3_binary_extract_bounds.2.1 2 [5, 6] [5, 6] [] rfl,
   c3_binary_extract_bounds.2.2.1 3 [5, 6] (by decide),
   c3_binary_extract_bounds.2.2.2.2 1 2 0 0 1 5 [] (by decide) (by decide) (by decide)
     (by decide)⟩
